import Mathlib

/-!
Verification development for the outline construction pipeline of
`browser_use/dom/serializer/outline.py`: landmark detection, heading
hierarchy extraction, and cross-step region change detection over a
simplified document tree.

The data model (`SimplifiedNode`, its `original_node` DOM view and the
attached accessibility descriptor) is consumed read-only by the code
under study; it is embedded here with exactly the fields the outline
module reads.
-/

namespace Outline

/-! ## Definitions: the embedded source, derived notions, and
concrete example values -/

/-- Kind of a DOM node.  Only "element vs. other" matters to the outline
module (`NodeType.ELEMENT_NODE` comparisons). -/
inductive NodeType where
  | elementNode
  | textNode
  | otherNode
deriving DecidableEq, Repr

/-- One name/value property pair attached to an accessibility node
(`ax_node.properties` entries, read by `_get_heading_level`).  The value is
optional (`prop.value is not None` check in the source); it is held as a
string and parsed with an integer parser where the source calls `int()`. -/
structure AXProperty where
  name : String
  value : Option String
deriving DecidableEq, Repr

/-- Accessibility descriptor of a DOM node (`ax_node`): role string,
accessible name, and property list.  `role`/`name` are optional and the
source additionally treats empty strings as absent (Python truthiness);
a `None` property list and an empty one are indistinguishable to the
source (it only iterates), so properties are a plain list here. -/
structure AXNode where
  role : Option String
  name : Option String
  properties : List AXProperty
deriving DecidableEq, Repr

/-- The underlying DOM node view (`original_node`) with the fields the
outline module reads: node kind, tag name, optional accessibility
descriptor, and the stable numeric `backend_node_id`.

`children_text` — Modelled from the spec: the source calls
`original.get_all_children_text(max_depth=3) or ''` (a method of the
external tree type, not part of the sources under study); the spec
describes it as a bounded-depth visible-text aggregation defaulting to the
empty string, so its result is held here as an opaque input field. -/
structure DOMNode where
  node_type : NodeType
  tag_name : String
  ax_node : Option AXNode
  backend_node_id : Nat
  children_text : String
deriving DecidableEq, Repr

/-- A node of the simplified document tree (`SimplifiedNode`): the
underlying DOM view, the `is_interactive` flag, and the ordered children. -/
inductive SimplifiedNode where
  | mk (original_node : DOMNode) (is_interactive : Bool)
       (children : List SimplifiedNode)

/-- The `original_node` field. -/
def SimplifiedNode.original_node : SimplifiedNode → DOMNode
  | .mk o _ _ => o

/-- The `is_interactive` flag. -/
def SimplifiedNode.is_interactive : SimplifiedNode → Bool
  | .mk _ i _ => i

/-- The ordered child list. -/
def SimplifiedNode.children : SimplifiedNode → List SimplifiedNode
  | .mk _ _ c => c

/-- `LANDMARK_ROLES` from the source (membership is all that is used). -/
def LANDMARK_ROLES : List String :=
  ["banner", "navigation", "main", "complementary", "contentinfo",
   "search", "form", "region"]

/-- `IMPLICIT_LANDMARK_TAGS` from the source: HTML5 tags implying landmark
roles. -/
def IMPLICIT_LANDMARK_TAGS : List (String × String) :=
  [("header", "banner"), ("nav", "navigation"), ("main", "main"),
   ("aside", "complementary"), ("footer", "contentinfo"),
   ("search", "search")]

/-- `NAMED_ONLY_ROLES` from the source: roles requiring an accessible name. -/
def NAMED_ONLY_ROLES : List String := ["form", "region"]

/-- Python's `str.lower()` for the ASCII strings handled here, written over
the character list so that it is kernel-computable (Lean's own
`String.toLower` recurses on byte positions and does not reduce). -/
def str_lower (s : String) : String := ⟨s.data.map Char.toLower⟩

/-- Python's `str.upper()`, ASCII, kernel-computable. -/
def str_upper (s : String) : String := ⟨s.data.map Char.toUpper⟩

/-- Python truthiness of an optional string: `None` and `""` are falsy.
Returns the string when truthy, `none` otherwise. -/
def strTruthy : Option String → Option String
  | none => none
  | some s => if s = "" then none else some s

/-- The lowered AX role when present and truthy, mirroring
`original.ax_node and original.ax_node.role` followed by `.lower()`. -/
def axRole (node : SimplifiedNode) : Option String :=
  match node.original_node.ax_node with
  | none => none
  | some ax => (strTruthy ax.role).map str_lower

/-- The AX name when present and truthy, mirroring
`original.ax_node and original.ax_node.name`. -/
def axName (node : SimplifiedNode) : Option String :=
  match node.original_node.ax_node with
  | none => none
  | some ax => strTruthy ax.name

/-- `_get_landmark_role`: the landmark role for a node, or `none`.
AX role is consulted first; when the (truthy, lowered) AX role is in
`LANDMARK_ROLES` the answer comes from that branch (with the named-only
gate); otherwise the implicit tag mapping is consulted for element nodes,
with the same named-only gate. -/
def get_landmark_role (node : SimplifiedNode) : Option String :=
  let ax_role := axRole node
  let ax_name := axName node
  match ax_role with
  | some r =>
    if r ∈ LANDMARK_ROLES then
      if r ∈ NAMED_ONLY_ROLES ∧ ax_name = none then none else some r
    else
      implicit_fallback node ax_name
  | none => implicit_fallback node ax_name
where
  /-- The implicit tag mapping branch of `_get_landmark_role` (its step 2):
  for element nodes, look the lowered tag up in `IMPLICIT_LANDMARK_TAGS`,
  applying the named-only gate to the implicit role as well. -/
  implicit_fallback (node : SimplifiedNode) (ax_name : Option String) :
      Option String :=
    if node.original_node.node_type = NodeType.elementNode then
      match (IMPLICIT_LANDMARK_TAGS.lookup
              (str_lower node.original_node.tag_name)) with
      | some implicit_role =>
        if implicit_role ∈ NAMED_ONLY_ROLES ∧ ax_name = none then none
        else some implicit_role
      | none => none
    else none

/-- `_get_ax_name`: the accessible name from the AX tree, if any. -/
def get_ax_name (node : SimplifiedNode) : Option String := axName node

/-- `_count_interactive`: count interactive elements in the node and all
its descendants. -/
def count_interactive : SimplifiedNode → Nat
  | .mk _ i cs => (if i then 1 else 0) + go cs
where
  go : List SimplifiedNode → Nat
  | [] => 0
  | c :: rest => count_interactive c + go rest

/-- A detected landmark region (`LandmarkRegion` dataclass): role, optional
accessible name, the landmark root node, tree depth, the direct child list,
total interactive element count, and nested sub-regions. -/
inductive LandmarkRegion where
  | mk (role : String) (name : Option String) (node : SimplifiedNode)
       (depth : Nat) (children : List SimplifiedNode) (element_count : Nat)
       (sub_regions : List LandmarkRegion)

/-- The region's role. -/
def LandmarkRegion.role : LandmarkRegion → String
  | .mk r _ _ _ _ _ _ => r

/-- The region's accessible name. -/
def LandmarkRegion.name : LandmarkRegion → Option String
  | .mk _ n _ _ _ _ _ => n

/-- The landmark root node. -/
def LandmarkRegion.node : LandmarkRegion → SimplifiedNode
  | .mk _ _ nd _ _ _ _ => nd

/-- The tree depth where the landmark was found. -/
def LandmarkRegion.depth : LandmarkRegion → Nat
  | .mk _ _ _ d _ _ _ => d

/-- The landmark node's direct child list. -/
def LandmarkRegion.children : LandmarkRegion → List SimplifiedNode
  | .mk _ _ _ _ cs _ _ => cs

/-- The total interactive element count. -/
def LandmarkRegion.element_count : LandmarkRegion → Nat
  | .mk _ _ _ _ _ ec _ => ec

/-- The nested sub-regions. -/
def LandmarkRegion.sub_regions : LandmarkRegion → List LandmarkRegion
  | .mk _ _ _ _ _ _ sr => sr

/-- `_detect_landmarks_recursive`: the list of regions the call appends to
its accumulator.  A landmark node yields one region whose `sub_regions`
collect the landmarks found in its children; a non-landmark node passes
the children's regions straight through to the caller's accumulator. -/
def detect_landmarks_recursive : SimplifiedNode → Nat → List LandmarkRegion
  | node@(.mk _ _ cs), depth =>
    match get_landmark_role node with
    | some role =>
      [LandmarkRegion.mk role (get_ax_name node) node depth cs
         (count_interactive node) (goSubs cs depth)]
    | none => goSubs cs depth
where
  /-- Sequential accumulation over the child list (`for child in
  node.children: _detect_landmarks_recursive(child, depth + 1, …)`). -/
  goSubs : List SimplifiedNode → Nat → List LandmarkRegion
  | [], _ => []
  | c :: rest, depth =>
    detect_landmarks_recursive c (depth + 1) ++ goSubs rest depth

/-- `detect_landmarks`: walk the tree and return the flat list of top-level
landmark regions (nested landmarks live in `sub_regions`). -/
def detect_landmarks (root : SimplifiedNode) (depth : Nat := 0) :
    List LandmarkRegion :=
  detect_landmarks_recursive root depth

/-- `HEADING_TAGS` from the source. -/
def HEADING_TAGS : List String := ["h1", "h2", "h3", "h4", "h5", "h6"]

/-- The level encoded in a heading tag name (`int(tag[1])` for members of
`HEADING_TAGS`). -/
def heading_tag_level (tag : String) : Option Int :=
  if tag = "h1" then some 1
  else if tag = "h2" then some 2
  else if tag = "h3" then some 3
  else if tag = "h4" then some 4
  else if tag = "h5" then some 5
  else if tag = "h6" then some 6
  else none

/-- Decimal digit run accumulated into a number; any non-digit fails the
parse. -/
def parse_digits : List Char → Nat → Option Nat
  | [], acc => some acc
  | c :: rest, acc =>
    if c.isDigit then parse_digits rest (acc * 10 + (c.toNat - 48))
    else none

/-- Python's `int(str)` for plain decimal literals with an optional sign
(the only shapes the AX `level` property can carry), written over the
character list so that it is kernel-computable; anything else fails like
`int()` raising `ValueError`. -/
def parse_int (s : String) : Option Int :=
  match s.data with
  | [] => none
  | '-' :: rest =>
    match rest with
    | [] => none
    | _ => (parse_digits rest 0).map (fun n => -(n : Int))
  | '+' :: rest =>
    match rest with
    | [] => none
    | _ => (parse_digits rest 0).map (fun n => (n : Int))
  | cs => (parse_digits cs 0).map (fun n => (n : Int))

/-- The property-list scan of `_get_heading_level`: the first property
named `level` whose value is present and parses as an integer; entries
that fail the `int()` parse are skipped (`except … pass`). -/
def level_from_properties : List AXProperty → Option Int
  | [] => none
  | p :: rest =>
    if p.name = "level" then
      match p.value with
      | some v =>
        match parse_int v with
        | some i => some i
        | none => level_from_properties rest
      | none => level_from_properties rest
    else level_from_properties rest

/-- The property list of the node's AX descriptor (empty when there is no
descriptor or no list; the source only iterates it, so `None` and `[]`
behave identically). -/
def axProperties (node : SimplifiedNode) : List AXProperty :=
  match node.original_node.ax_node with
  | none => []
  | some ax => ax.properties

/-- `_get_heading_level`: the heading level if the node is a heading, else
`none`.  With AX role `heading`: parse the `level` property, else derive
from an `h1`–`h6` tag, else default to 1.  Any other situation falls back
to tag-based detection on element nodes. -/
def get_heading_level (node : SimplifiedNode) : Option Int :=
  match axRole node with
  | some r =>
    if r = "heading" then
      match level_from_properties (axProperties node) with
      | some lvl => some lvl
      | none =>
        match heading_tag_level (str_lower node.original_node.tag_name) with
        | some lvl => some lvl
        | none => some 1
    else tag_fallback node
  | none => tag_fallback node
where
  /-- The tag-based detection at the end of `_get_heading_level`. -/
  tag_fallback (node : SimplifiedNode) : Option Int :=
    if node.original_node.node_type = NodeType.elementNode then
      heading_tag_level (str_lower node.original_node.tag_name)
    else none

/-- `_get_heading_text`: the AX name when truthy, else the bounded-depth
children text (already defaulted to `""`). -/
def get_heading_text (node : SimplifiedNode) : String :=
  match axName node with
  | some s => s
  | none => node.original_node.children_text

/-- A heading element of the document hierarchy (`HeadingNode` dataclass):
level, text, the heading node, the enclosing landmark label, and nested
child headings. -/
inductive HeadingNode where
  | mk (level : Int) (text : String) (node : SimplifiedNode)
       (parent_landmark : Option String) (children : List HeadingNode)

/-- The heading level. -/
def HeadingNode.level : HeadingNode → Int
  | .mk l _ _ _ _ => l

/-- The heading text. -/
def HeadingNode.text : HeadingNode → String
  | .mk _ t _ _ _ => t

/-- The heading element. -/
def HeadingNode.node : HeadingNode → SimplifiedNode
  | .mk _ _ n _ _ => n

/-- The enclosing landmark label. -/
def HeadingNode.parent_landmark : HeadingNode → Option String
  | .mk _ _ _ p _ => p

/-- The nested child headings. -/
def HeadingNode.children : HeadingNode → List HeadingNode
  | .mk _ _ _ _ c => c

/-- The landmark label built by `_collect_headings_flat` when a
landmark-classified node is entered: the uppercased role, with a
`: "name"` suffix when the landmark has a truthy AX name. -/
def landmark_label (role : String) (ax_name : Option String) : String :=
  match ax_name with
  | some nm => str_upper role ++ ": \"" ++ nm ++ "\""
  | none => str_upper role

/-- `_collect_headings_flat`: all headings of the subtree in DFS order.
The current-landmark label is updated when the node itself classifies as a
landmark, the node's own heading (if any) is emitted with the updated
label, and the updated label is passed down to the children. -/
def collect_headings_flat : SimplifiedNode → Option String → List HeadingNode
  | node@(.mk _ _ cs), current_landmark =>
    let cur : Option String :=
      match get_landmark_role node with
      | some role => some (landmark_label role (get_ax_name node))
      | none => current_landmark
    (match get_heading_level node with
     | some lvl =>
       [HeadingNode.mk lvl (get_heading_text node) node cur []]
     | none => []) ++ goChildren cs cur
where
  /-- Sequential accumulation over the child list. -/
  goChildren : List SimplifiedNode → Option String → List HeadingNode
  | [], _ => []
  | c :: rest, cur => collect_headings_flat c cur ++ goChildren rest cur

/-- Replace a heading's child list (the effect of the in-place
`children.append` mutations of `_nest_headings`, applied when the heading
can no longer change). -/
def HeadingNode.withChildren : HeadingNode → List HeadingNode → HeadingNode
  | .mk l t n p _, cs => .mk l t n p cs

/-- One frame of the `_nest_headings` stack: an open heading together with
the children appended to it so far. -/
abbrev NestFrame := HeadingNode × List HeadingNode

/-- The `while stack and stack[-1].level >= heading.level: stack.pop()`
loop of `_nest_headings`, in a pure form.  In the source a heading's child
list only grows while the heading sits on the stack, so a popped frame can
be finalized into a closed heading on the spot; `pending` carries the
heading finalized by the previous pop, to be attached to the next frame
down (or, when the whole stack empties, to be handed back for the root
list).  The stack's head is its top.  Returns the surviving stack and the
pending closed heading (present only when the stack emptied). -/
def pop_ge (level : Int) :
    List NestFrame → Option HeadingNode → List NestFrame × Option HeadingNode
  | [], pending => ([], pending)
  | (h, kids) :: rest, pending =>
    let kids' := kids ++ pending.toList
    if level ≤ h.level then pop_ge level rest (some (h.withChildren kids'))
    else ((h, kids') :: rest, none)

/-- Finalize every frame left on the stack after the loop of
`_nest_headings`: each closed heading is appended to the frame below; the
bottom-most closed heading (which absorbs everything above it) is returned
to be appended to the root list. -/
def finalize_stack :
    List NestFrame → Option HeadingNode → Option HeadingNode
  | [], pending => pending
  | (h, kids) :: rest, pending =>
    finalize_stack rest (some (h.withChildren (kids ++ pending.toList)))

/-- One iteration of the `for heading in flat` loop of `_nest_headings`
over the state (stack, root list): pop frames with level ≥ the current
heading's level, append the heading finalized by a stack-emptying pop to
the root list, then push the current heading as a new open frame (seeded
with its existing child list, which `children.append` would extend). -/
def nest_step (state : List NestFrame × List HeadingNode)
    (heading : HeadingNode) : List NestFrame × List HeadingNode :=
  let (stack', pending) := pop_ge heading.level state.1 none
  ((heading, heading.children) :: stack', state.2 ++ pending.toList)

/-- `_nest_headings`: convert a flat heading list into a nested hierarchy
based on level, with the stack algorithm of the source (pure rendition:
mutation of a heading's child list is deferred to the moment the heading
leaves the stack, after which the source never touches it again). -/
def nest_headings (flat : List HeadingNode) : List HeadingNode :=
  let (stack, root) := flat.foldl nest_step ([], [])
  root ++ (finalize_stack stack none).toList

/-- `extract_heading_hierarchy`: collect the headings in document order,
then nest them by level. -/
def extract_heading_hierarchy (root : SimplifiedNode)
    (parent_landmark : Option String := none) : List HeadingNode :=
  nest_headings (collect_headings_flat root parent_landmark)

/-- `_region_key`: the stable identity key of a landmark region,
`role + ":" + (name or "")`. -/
def region_key (region : LandmarkRegion) : String :=
  region.role ++ ":" ++ (region.name.getD "")

/-- `_collect_backend_ids`: the `backend_node_id`s of the interactive
nodes of a subtree, as the set the source accumulates. -/
def collect_backend_ids : SimplifiedNode → Finset Nat
  | .mk o i cs =>
    (if i then {o.backend_node_id} else ∅) ∪ go cs
where
  go : List SimplifiedNode → Finset Nat
  | [] => ∅
  | c :: rest => collect_backend_ids c ∪ go rest

/-- `_region_element_ids`: the frozen set of backend ids of all
interactive elements under the region's root node. -/
def region_element_ids (region : LandmarkRegion) : Finset Nat :=
  collect_backend_ids region.node

/-- Insertion into a Python-dict model (association list, first occurrence
of a key holds its value and is updated in place). -/
def dict_insert {α : Type} (m : List (String × α)) (k : String) (v : α) :
    List (String × α) :=
  match m with
  | [] => [(k, v)]
  | (k', v') :: rest =>
    if k' = k then (k', v) :: rest else (k', v') :: dict_insert rest k v

/-- Lookup in the Python-dict model. -/
def dict_get {α : Type} (m : List (String × α)) (k : String) : Option α :=
  match m with
  | [] => none
  | (k', v') :: rest => if k' = k then some v' else dict_get rest k

/-- `detect_unchanged_regions`: compare landmark regions between steps.
Maps each current region's key to `true` iff the key occurred in the
previous forest with the same element count and the same interactive-id
set; with no previous forest every key maps to `false`. -/
def detect_unchanged_regions (current : List LandmarkRegion)
    (previous : Option (List LandmarkRegion)) : List (String × Bool) :=
  match previous with
  | none => current.foldl (fun m r => dict_insert m (region_key r) false) []
  | some prev =>
    let prev_map : List (String × (Nat × Finset Nat)) :=
      prev.foldl
        (fun m r =>
          dict_insert m (region_key r) (r.element_count, region_element_ids r))
        []
    current.foldl
      (fun m r =>
        match dict_get prev_map (region_key r) with
        | none => dict_insert m (region_key r) false
        | some (prev_count, prev_ids) =>
          dict_insert m (region_key r)
            (decide (r.element_count = prev_count ∧
                     region_element_ids r = prev_ids)))
      []

/-- All subtrees of a node (the node itself and, recursively, the subtrees
of its children), in document order. -/
def subtreesOf : SimplifiedNode → List SimplifiedNode
  | .mk o i cs => .mk o i cs :: go cs
where
  go : List SimplifiedNode → List SimplifiedNode
  | [] => []
  | c :: rest => subtreesOf c ++ go rest

/-- The landmark-classified nodes of a subtree, in document order (each
occurrence listed once). -/
def landmarkNodes : SimplifiedNode → List SimplifiedNode
  | n@(.mk _ _ cs) =>
    (if (get_landmark_role n).isSome then [n] else []) ++ go cs
where
  go : List SimplifiedNode → List SimplifiedNode
  | [] => []
  | c :: rest => landmarkNodes c ++ go rest

/-- A region together with all its sub-regions, recursively, the region
itself first. -/
def regionFlatten : LandmarkRegion → List LandmarkRegion
  | r@(.mk _ _ _ _ _ _ sr) => r :: go sr
where
  go : List LandmarkRegion → List LandmarkRegion
  | [] => []
  | s :: rest => regionFlatten s ++ go rest

/-- All regions of a forest, nested ones included. -/
def forestFlatten (l : List LandmarkRegion) : List LandmarkRegion :=
  l.flatMap regionFlatten

/-- A heading with its child list emptied (the shape headings have in the
flat document-order list, before nesting). -/
def HeadingNode.stripped : HeadingNode → HeadingNode
  | .mk l t n p _ => .mk l t n p []

/-- Pre-order flattening of one heading tree: the heading itself
(stripped of children) first, then its children depth-first. -/
def headingPreorder : HeadingNode → List HeadingNode
  | .mk l t n p cs => .mk l t n p [] :: go cs
where
  go : List HeadingNode → List HeadingNode
  | [] => []
  | c :: rest => headingPreorder c ++ go rest

/-- Pre-order flattening of a heading forest, top-to-bottom then
depth-first. -/
def headingsPreorder (l : List HeadingNode) : List HeadingNode :=
  l.flatMap headingPreorder

/-- The last region of a list whose identity key is `k` (Python dict
assignment in a loop keeps the last written value per key). -/
def lastWithKey (k : String) : List LandmarkRegion → Option LandmarkRegion
  | [] => none
  | r :: rest =>
    match lastWithKey k rest with
    | some r' => some r'
    | none => if region_key r = k then some r else none

/-- A `<nav>` element whose AX descriptor carries the (non-landmark) role
string `generic`. -/
def genericNavNode : SimplifiedNode :=
  .mk ⟨.elementNode, "nav", some ⟨some "generic", none, []⟩, 10, ""⟩ false []

/-- A `<div>` element with the same AX descriptor as `genericNavNode`. -/
def genericDivNode : SimplifiedNode :=
  .mk ⟨.elementNode, "div", some ⟨some "generic", none, []⟩, 11, ""⟩ false []

/-- An element with AX role `banner` on a `div` tag. -/
def bannerDivNode : SimplifiedNode :=
  .mk ⟨.elementNode, "div", some ⟨some "banner", none, []⟩, 20, ""⟩ false []

/-- A non-element node with the same AX descriptor as `bannerDivNode`. -/
def bannerTextNode : SimplifiedNode :=
  .mk ⟨.textNode, "span", some ⟨some "banner", none, []⟩, 21, ""⟩ true []

/-- A `<div role="region">` with no accessible name. -/
def unnamedRegionNode : SimplifiedNode :=
  .mk ⟨.elementNode, "div", some ⟨some "region", none, []⟩, 30, ""⟩ false []

/-- The same element with `aria-label="Special Section"`. -/
def namedRegionNode : SimplifiedNode :=
  .mk ⟨.elementNode, "div",
    some ⟨some "region", some "Special Section", []⟩, 31, ""⟩ false []

/-- An interactive link. -/
def linkNode : SimplifiedNode := .mk ⟨.elementNode, "a", none, 3, ""⟩ true []

/-- A `<nav>` holding the link. -/
def navLmNode : SimplifiedNode :=
  .mk ⟨.elementNode, "nav", none, 2, ""⟩ false [linkNode]

/-- A `<header>` holding the `<nav>`. -/
def headerLmNode : SimplifiedNode :=
  .mk ⟨.elementNode, "header", none, 1, ""⟩ false [navLmNode]

/-- A non-landmark `<body>` root holding the `<header>`. -/
def rootBodyNode : SimplifiedNode :=
  .mk ⟨.elementNode, "body", none, 0, ""⟩ false [headerLmNode]

/-- The `navigation` region detected at `navLmNode`. -/
def navRegionVal : LandmarkRegion :=
  LandmarkRegion.mk "navigation" none navLmNode 2 [linkNode] 1 []

/-- The `banner` region detected at `headerLmNode`, with the `navigation`
region nested under it. -/
def bannerRegionVal : LandmarkRegion :=
  LandmarkRegion.mk "banner" none headerLmNode 1 [navLmNode] 1 [navRegionVal]

/-- An interactive leaf with the given backend id. -/
def leafNode (bid : Nat) : SimplifiedNode :=
  .mk ⟨.elementNode, "button", none, bid, ""⟩ true []

/-- A `main` region whose interactive descendants carry ids 1, 2, 3. -/
def prevSwapRegion : LandmarkRegion :=
  LandmarkRegion.mk "main" none
    (.mk ⟨.elementNode, "main", none, 100, ""⟩ false
      [leafNode 1, leafNode 2, leafNode 3]) 0 [] 3 []

/-- The same `main` region one step later: ids 1, 2, 4 (same count). -/
def curSwapRegion : LandmarkRegion :=
  LandmarkRegion.mk "main" none
    (.mk ⟨.elementNode, "main", none, 100, ""⟩ false
      [leafNode 1, leafNode 2, leafNode 4]) 0 [] 3 []

/-- A node with AX role `heading` whose `level` property carries `7`
(reachable in a browser through `role="heading" aria-level="7"`). -/
def levelSevenHeadingNode : SimplifiedNode :=
  .mk ⟨.elementNode, "div",
    some ⟨some "heading", none, [⟨"level", some "7"⟩]⟩, 40, "Deep"⟩ false []

/-- A childless heading carrying just a level and a text, as pass 1
produces them. -/
def flatHeading (lvl : Int) (txt : String) : HeadingNode :=
  .mk lvl txt (.mk ⟨.elementNode, "h1", none, 0, ""⟩ false []) none []

/-- Pre-order flattening of the still-open stack frames: bottom frames
first, each open heading (stripped) followed by the flattening of the
children attached to it so far. -/
def stackPre : List NestFrame → List HeadingNode
  | [] => []
  | f :: rest => stackPre rest ++ (f.1.stripped :: headingsPreorder f.2)

/-- Modelled from the spec: the claimed "single linear scan" heading
collection of C9 — one pass over the document-order node list carrying a
current-landmark label that updates when a landmark node is passed and is
NEVER reset afterwards (last-seen-wins).  This is the comparison
definition for the refinement claim; the source's
`collect_headings_flat` is compared against it. -/
def scan_headings_linear :
    List SimplifiedNode → Option String → List HeadingNode
  | [], _ => []
  | n :: rest, cur =>
    let cur' : Option String :=
      match get_landmark_role n with
      | some role => some (landmark_label role (get_ax_name n))
      | none => cur
    (match get_heading_level n with
     | some lvl => [HeadingNode.mk lvl (get_heading_text n) n cur' []]
     | none => []) ++ scan_headings_linear rest cur'

/-- A `<nav>` landmark with no headings inside. -/
def plainNavNode : SimplifiedNode :=
  .mk ⟨.elementNode, "nav", none, 51, ""⟩ false []

/-- An `<h2>` sibling that follows the `<nav>` after its subtree closed. -/
def h2AfterNode : SimplifiedNode :=
  .mk ⟨.elementNode, "h2", none, 52, "After"⟩ false []

/-- A non-landmark `<body>` holding the `<nav>` and then the `<h2>`. -/
def scanExTree : SimplifiedNode :=
  .mk ⟨.elementNode, "body", none, 50, ""⟩ false [plainNavNode, h2AfterNode]

/-- Enter/leave events of the depth-first walk, for phrasing the label
discipline as an explicit scope stack. -/
inductive WalkEv where
  | enter (n : SimplifiedNode)
  | leave

/-- The event stream of the depth-first walk: enter the node, walk the
children, leave. -/
def walkEvents : SimplifiedNode → List WalkEv
  | n@(.mk _ _ cs) => .enter n :: (go cs ++ [.leave])
where
  go : List SimplifiedNode → List WalkEv
  | [] => []
  | c :: rest => walkEvents c ++ go rest

/-- A single linear scan over the event stream that maintains the
landmark label as a proper scope stack: entering a node pushes its label
(updated if the node is a landmark, inherited otherwise), leaving pops. -/
def stack_scan_headings :
    List WalkEv → List (Option String) → List HeadingNode
  | [], _ => []
  | .enter n :: rest, stk =>
    let cur' : Option String :=
      match get_landmark_role n with
      | some role => some (landmark_label role (get_ax_name n))
      | none => stk.headD none
    (match get_heading_level n with
     | some lvl => [HeadingNode.mk lvl (get_heading_text n) n cur' []]
     | none => []) ++ stack_scan_headings rest (cur' :: stk)
  | .leave :: rest, stk => stack_scan_headings rest stk.tail

/-! ## Theorems -/

@[simp] theorem SimplifiedNode.original_node_mk (o : DOMNode) (i : Bool)
    (cs : List SimplifiedNode) :
    (SimplifiedNode.mk o i cs).original_node = o := rfl

@[simp] theorem SimplifiedNode.is_interactive_mk (o : DOMNode) (i : Bool)
    (cs : List SimplifiedNode) :
    (SimplifiedNode.mk o i cs).is_interactive = i := rfl

@[simp] theorem simplified_children_mk (o : DOMNode) (i : Bool)
    (cs : List SimplifiedNode) :
    (SimplifiedNode.mk o i cs).children = cs := rfl

@[simp] theorem LandmarkRegion.role_mk (r : String) (nm : Option String)
    (nd : SimplifiedNode) (d : Nat) (cs : List SimplifiedNode) (ec : Nat)
    (sr : List LandmarkRegion) :
    (LandmarkRegion.mk r nm nd d cs ec sr).role = r := rfl

@[simp] theorem LandmarkRegion.name_mk (r : String) (nm : Option String)
    (nd : SimplifiedNode) (d : Nat) (cs : List SimplifiedNode) (ec : Nat)
    (sr : List LandmarkRegion) :
    (LandmarkRegion.mk r nm nd d cs ec sr).name = nm := rfl

@[simp] theorem region_node_mk (r : String) (nm : Option String)
    (nd : SimplifiedNode) (d : Nat) (cs : List SimplifiedNode) (ec : Nat)
    (sr : List LandmarkRegion) :
    (LandmarkRegion.mk r nm nd d cs ec sr).node = nd := rfl

@[simp] theorem LandmarkRegion.depth_mk (r : String) (nm : Option String)
    (nd : SimplifiedNode) (d : Nat) (cs : List SimplifiedNode) (ec : Nat)
    (sr : List LandmarkRegion) :
    (LandmarkRegion.mk r nm nd d cs ec sr).depth = d := rfl

@[simp] theorem region_children_mk (r : String) (nm : Option String)
    (nd : SimplifiedNode) (d : Nat) (cs : List SimplifiedNode) (ec : Nat)
    (sr : List LandmarkRegion) :
    (LandmarkRegion.mk r nm nd d cs ec sr).children = cs := rfl

@[simp] theorem LandmarkRegion.element_count_mk (r : String)
    (nm : Option String) (nd : SimplifiedNode) (d : Nat)
    (cs : List SimplifiedNode) (ec : Nat) (sr : List LandmarkRegion) :
    (LandmarkRegion.mk r nm nd d cs ec sr).element_count = ec := rfl

@[simp] theorem LandmarkRegion.sub_regions_mk (r : String)
    (nm : Option String) (nd : SimplifiedNode) (d : Nat)
    (cs : List SimplifiedNode) (ec : Nat) (sr : List LandmarkRegion) :
    (LandmarkRegion.mk r nm nd d cs ec sr).sub_regions = sr := rfl

@[simp] theorem HeadingNode.level_mk (l : Int) (t : String)
    (n : SimplifiedNode) (p : Option String) (cs : List HeadingNode) :
    (HeadingNode.mk l t n p cs).level = l := rfl

@[simp] theorem HeadingNode.text_mk (l : Int) (t : String)
    (n : SimplifiedNode) (p : Option String) (cs : List HeadingNode) :
    (HeadingNode.mk l t n p cs).text = t := rfl

@[simp] theorem heading_node_mk (l : Int) (t : String)
    (n : SimplifiedNode) (p : Option String) (cs : List HeadingNode) :
    (HeadingNode.mk l t n p cs).node = n := rfl

@[simp] theorem HeadingNode.parent_landmark_mk (l : Int) (t : String)
    (n : SimplifiedNode) (p : Option String) (cs : List HeadingNode) :
    (HeadingNode.mk l t n p cs).parent_landmark = p := rfl

@[simp] theorem heading_children_mk (l : Int) (t : String)
    (n : SimplifiedNode) (p : Option String) (cs : List HeadingNode) :
    (HeadingNode.mk l t n p cs).children = cs := rfl

/-- Induction over a `SimplifiedNode` with the hypothesis available for
every member of the child list. -/
theorem node_indOn {P : SimplifiedNode → Prop}
    (step : ∀ o i cs, (∀ c ∈ cs, P c) → P (.mk o i cs)) :
    ∀ t, P t := by
  intro t
  refine SimplifiedNode.rec (motive_1 := P)
    (motive_2 := fun l => ∀ c ∈ l, P c) ?_ ?_ ?_ t
  · exact step
  · intro c hc; cases hc
  · intro hd tl ph pt c hc
    rcases List.mem_cons.mp hc with h | h
    · exact h ▸ ph
    · exact pt c h

/-- Induction over a `LandmarkRegion` with the hypothesis available for
every member of the sub-region list. -/
theorem region_indOn {P : LandmarkRegion → Prop}
    (step : ∀ ρ nm nd d cs ec sr, (∀ s ∈ sr, P s) →
      P (.mk ρ nm nd d cs ec sr)) :
    ∀ r, P r := by
  intro r
  refine LandmarkRegion.rec (motive_1 := P)
    (motive_2 := fun l => ∀ s ∈ l, P s) ?_ ?_ ?_ r
  · exact step
  · intro s hs; cases hs
  · intro hd tl ph pt s hs
    rcases List.mem_cons.mp hs with h | h
    · exact h ▸ ph
    · exact pt s h

theorem count_interactive_go (cs : List SimplifiedNode) :
    count_interactive.go cs = (cs.map count_interactive).sum := by
  induction cs with
  | nil => rfl
  | cons c rest ih => simp [count_interactive.go, ih]

theorem count_interactive_mk (o : DOMNode) (i : Bool)
    (cs : List SimplifiedNode) :
    count_interactive (.mk o i cs) =
      (if i then 1 else 0) + (cs.map count_interactive).sum := by
  rw [count_interactive, count_interactive_go]

theorem detect_goSubs_eq (cs : List SimplifiedNode) (d : Nat) :
    detect_landmarks_recursive.goSubs cs d =
      cs.flatMap (fun c => detect_landmarks_recursive c (d + 1)) := by
  induction cs with
  | nil => rfl
  | cons c rest ih => simp [detect_landmarks_recursive.goSubs, ih]

theorem collect_goChildren_eq (cs : List SimplifiedNode)
    (cur : Option String) :
    collect_headings_flat.goChildren cs cur =
      cs.flatMap (fun c => collect_headings_flat c cur) := by
  induction cs with
  | nil => rfl
  | cons c rest ih => simp [collect_headings_flat.goChildren, ih]

theorem subtreesOf_go (cs : List SimplifiedNode) :
    subtreesOf.go cs = cs.flatMap subtreesOf := by
  induction cs with
  | nil => rfl
  | cons c rest ih => simp [subtreesOf.go, ih]

theorem landmarkNodes_go (cs : List SimplifiedNode) :
    landmarkNodes.go cs = cs.flatMap landmarkNodes := by
  induction cs with
  | nil => rfl
  | cons c rest ih => simp [landmarkNodes.go, ih]

theorem regionFlatten_go (sr : List LandmarkRegion) :
    regionFlatten.go sr = sr.flatMap regionFlatten := by
  induction sr with
  | nil => rfl
  | cons s rest ih => simp [regionFlatten.go, ih]

theorem headingPreorder_go (cs : List HeadingNode) :
    headingPreorder.go cs = cs.flatMap headingPreorder := by
  induction cs with
  | nil => rfl
  | cons c rest ih => simp [headingPreorder.go, ih]

theorem collect_backend_ids_go (cs : List SimplifiedNode) :
    collect_backend_ids.go cs =
      cs.foldr (fun c acc => collect_backend_ids c ∪ acc) ∅ := by
  induction cs with
  | nil => rfl
  | cons c rest ih => simp [collect_backend_ids.go, ih]

theorem detect_rec_eq :
    ∀ (n : SimplifiedNode) (d : Nat),
      detect_landmarks_recursive n d =
        match get_landmark_role n with
        | some role =>
          [LandmarkRegion.mk role (get_ax_name n) n d n.children
            (count_interactive n)
            (n.children.flatMap (fun c => detect_landmarks_recursive c (d + 1)))]
        | none =>
          n.children.flatMap (fun c => detect_landmarks_recursive c (d + 1))
  | .mk _ _ _, _ => by
    simp only [detect_landmarks_recursive, detect_goSubs_eq,
      SimplifiedNode.children]

theorem collect_flat_eq :
    ∀ (n : SimplifiedNode) (cur : Option String),
      collect_headings_flat n cur =
        (let cur' : Option String :=
          match get_landmark_role n with
          | some role => some (landmark_label role (get_ax_name n))
          | none => cur
        (match get_heading_level n with
         | some lvl => [HeadingNode.mk lvl (get_heading_text n) n cur' []]
         | none => []) ++
          n.children.flatMap (fun c => collect_headings_flat c cur'))
  | .mk _ _ _, _ => by
    simp only [collect_headings_flat, collect_goChildren_eq,
      SimplifiedNode.children]

theorem subtreesOf_eq :
    ∀ n : SimplifiedNode, subtreesOf n = n :: n.children.flatMap subtreesOf
  | .mk _ _ _ => by
    simp only [subtreesOf, subtreesOf_go, SimplifiedNode.children]

theorem landmarkNodes_eq :
    ∀ n : SimplifiedNode,
      landmarkNodes n =
        (if (get_landmark_role n).isSome then [n] else []) ++
          n.children.flatMap landmarkNodes
  | .mk _ _ _ => by
    simp only [landmarkNodes, landmarkNodes_go, SimplifiedNode.children]

theorem regionFlatten_eq :
    ∀ r : LandmarkRegion,
      regionFlatten r = r :: r.sub_regions.flatMap regionFlatten
  | .mk _ _ _ _ _ _ _ => by
    simp only [regionFlatten, regionFlatten_go, LandmarkRegion.sub_regions]

theorem headingPreorder_eq :
    ∀ h : HeadingNode,
      headingPreorder h = h.stripped :: h.children.flatMap headingPreorder
  | .mk _ _ _ _ _ => by
    simp only [headingPreorder, headingPreorder_go, HeadingNode.children,
      HeadingNode.stripped]

theorem collect_backend_ids_eq :
    ∀ n : SimplifiedNode,
      collect_backend_ids n =
        (if n.is_interactive then {n.original_node.backend_node_id} else ∅) ∪
          n.children.foldr (fun c acc => collect_backend_ids c ∪ acc) ∅
  | .mk _ _ _ => by
    simp only [collect_backend_ids, collect_backend_ids_go,
      SimplifiedNode.children, SimplifiedNode.is_interactive,
      SimplifiedNode.original_node]

theorem self_mem_subtreesOf (n : SimplifiedNode) : n ∈ subtreesOf n := by
  rw [subtreesOf_eq]; exact List.mem_cons_self ..

theorem subtreesOf_trans :
    ∀ (z : SimplifiedNode) {x y : SimplifiedNode},
      x ∈ subtreesOf y → y ∈ subtreesOf z → x ∈ subtreesOf z := by
  intro z
  induction z using node_indOn with
  | step o i cs ih =>
    intro x y hxy hyz
    rw [subtreesOf_eq] at hyz ⊢
    rcases List.mem_cons.mp hyz with h | h
    · subst h
      rw [subtreesOf_eq] at hxy
      exact hxy
    · rcases List.mem_flatMap.mp h with ⟨c, hc, hyc⟩
      exact List.mem_cons_of_mem _
        (List.mem_flatMap.mpr ⟨c, hc, ih c hc hxy hyc⟩)

theorem mem_foldr_union (x : Nat) (cs : List SimplifiedNode) :
    x ∈ cs.foldr (fun c acc => collect_backend_ids c ∪ acc) ∅ ↔
      ∃ c ∈ cs, x ∈ collect_backend_ids c := by
  induction cs with
  | nil => simp
  | cons c rest ih => simp [ih]

theorem mem_collect_backend_ids (x : Nat) :
    ∀ n : SimplifiedNode,
      x ∈ collect_backend_ids n ↔
        ∃ m ∈ subtreesOf n,
          m.is_interactive = true ∧ m.original_node.backend_node_id = x := by
  intro n
  induction n using node_indOn with
  | step o i cs ih =>
    rw [collect_backend_ids_eq, subtreesOf_eq]
    simp only [Finset.mem_union, mem_foldr_union, List.mem_cons,
      List.mem_flatMap, SimplifiedNode.is_interactive_mk,
      SimplifiedNode.original_node_mk, simplified_children_mk]
    constructor
    · intro hx
      rcases hx with h | ⟨c, hc, hxc⟩
      · cases i with
        | false => simp at h
        | true =>
          simp only [if_pos, Finset.mem_singleton] at h
          exact ⟨.mk o true cs, Or.inl rfl, rfl, h.symm⟩
      · rcases (ih c hc).mp hxc with ⟨m, hm, h1, h2⟩
        exact ⟨m, Or.inr ⟨c, hc, hm⟩, h1, h2⟩
    · rintro ⟨m, hm | ⟨c, hc, hmc⟩, h1, h2⟩
      · subst hm
        simp only [SimplifiedNode.is_interactive_mk] at h1
        subst h1
        simp only [SimplifiedNode.original_node_mk] at h2
        exact Or.inl (by simp [h2])
      · exact Or.inr ⟨c, hc, (ih c hc).mpr ⟨m, hmc, h1, h2⟩⟩

theorem collect_backend_ids_subset {m n : SimplifiedNode}
    (h : m ∈ subtreesOf n) :
    collect_backend_ids m ⊆ collect_backend_ids n := by
  intro x hx
  rcases (mem_collect_backend_ids x m).mp hx with ⟨m', hm', h1, h2⟩
  exact (mem_collect_backend_ids x n).mpr
    ⟨m', subtreesOf_trans n hm' h, h1, h2⟩

theorem axRole_ax_eq {o o' : DOMNode} (i i' : Bool)
    (cs cs' : List SimplifiedNode) (h : o.ax_node = o'.ax_node) :
    axRole (.mk o i cs) = axRole (.mk o' i' cs') := by
  simp [axRole, h]

theorem axName_ax_eq {o o' : DOMNode} (i i' : Bool)
    (cs cs' : List SimplifiedNode) (h : o.ax_node = o'.ax_node) :
    axName (.mk o i cs) = axName (.mk o' i' cs') := by
  simp [axName, h]

/-- When the node carries an AX role that is in the landmark-role set, only
the named-only gate stands between the role and the answer (the implicit
tag mapping is not consulted). -/
theorem get_landmark_role_ax_mem {n : SimplifiedNode} {r : String}
    (h1 : axRole n = some r) (h2 : r ∈ LANDMARK_ROLES) :
    get_landmark_role n =
      if r ∈ NAMED_ONLY_ROLES ∧ axName n = none then none else some r := by
  unfold get_landmark_role
  rw [h1]
  simp [h2]

/-- When the node carries an AX role that is NOT in the landmark-role set,
the answer comes from the implicit tag mapping. -/
theorem get_landmark_role_ax_not_mem {n : SimplifiedNode} {r : String}
    (h1 : axRole n = some r) (h2 : r ∉ LANDMARK_ROLES) :
    get_landmark_role n =
      get_landmark_role.implicit_fallback n (axName n) := by
  unfold get_landmark_role
  rw [h1]
  simp [h2]

theorem named_only_mem_landmark {r : String} (h : r ∈ NAMED_ONLY_ROLES) :
    r ∈ LANDMARK_ROLES := by
  simp only [NAMED_ONLY_ROLES, List.mem_cons, List.mem_singleton] at h
  rcases h with h | h | h <;> first | (subst h; decide) | cases h

/-- Node of every region produced by the recursion lies in the walked
subtree. -/
theorem detect_node_mem :
    ∀ (t : SimplifiedNode) (d : Nat) (r : LandmarkRegion),
      r ∈ detect_landmarks_recursive t d → r.node ∈ subtreesOf t := by
  intro t
  induction t using node_indOn with
  | step o i cs ih =>
    intro d r hr
    rw [detect_rec_eq] at hr
    rw [subtreesOf_eq]
    rcases hrole : get_landmark_role (.mk o i cs) with _ | role <;>
      rw [hrole] at hr
    · simp only [simplified_children_mk] at hr
      rcases List.mem_flatMap.mp hr with ⟨c, hc, hrc⟩
      exact List.mem_cons_of_mem _
        (List.mem_flatMap.mpr ⟨c, hc, ih c hc (d + 1) r hrc⟩)
    · rcases List.mem_singleton.mp hr with rfl
      exact List.mem_cons_self ..

/-- The running invariants of the landmark forest: every region (nested
ones included) records its node's landmark role, its accessible name, its
direct children and the interactive count of its whole subtree, and its
sub-regions' nodes lie inside its children's subtrees. -/
theorem detect_forest_inv :
    ∀ (t : SimplifiedNode) (d : Nat) (r : LandmarkRegion),
      r ∈ forestFlatten (detect_landmarks_recursive t d) →
        get_landmark_role r.node = some r.role ∧
        r.name = get_ax_name r.node ∧
        r.children = r.node.children ∧
        r.element_count = count_interactive r.node ∧
        ∀ s ∈ r.sub_regions, ∃ c ∈ r.node.children, s.node ∈ subtreesOf c := by
  intro t
  induction t using node_indOn with
  | step o i cs ih =>
    intro d r hr
    rw [detect_rec_eq] at hr
    rcases hrole : get_landmark_role (.mk o i cs) with _ | role <;>
      rw [hrole] at hr
    · simp only [simplified_children_mk, forestFlatten] at hr
      rcases List.mem_flatMap.mp hr with ⟨x, hx, hrx⟩
      rcases List.mem_flatMap.mp hx with ⟨c, hc, hxc⟩
      exact ih c hc (d + 1) r
        (List.mem_flatMap.mpr ⟨x, hxc, hrx⟩)
    · simp only [forestFlatten, List.flatMap_singleton] at hr
      rw [regionFlatten_eq] at hr
      rcases List.mem_cons.mp hr with rfl | hr'
      · refine ⟨by simp [hrole], by simp, by simp, by simp, ?_⟩
        intro s hs
        simp only [LandmarkRegion.sub_regions_mk,
          simplified_children_mk] at hs
        rcases List.mem_flatMap.mp hs with ⟨c, hc, hsc⟩
        refine ⟨c, ?_, detect_node_mem c (d + 1) s hsc⟩
        simpa using hc
      · simp only [LandmarkRegion.sub_regions_mk,
          simplified_children_mk] at hr'
        rcases List.mem_flatMap.mp hr' with ⟨s, hs, hrs⟩
        rcases List.mem_flatMap.mp hs with ⟨c, hc, hsc⟩
        exact ih c hc (d + 1) r
          (List.mem_flatMap.mpr ⟨s, hsc, hrs⟩)

/-- Counterexample to C1: both nodes carry the AX role string `generic`
(not a landmark role) and have identical accessibility descriptors, yet
`_get_landmark_role` classifies the `<nav>` as `navigation` (through the
implicit tag-name table) and the `<div>` as no landmark — so for a node
whose descriptor carries a role string the implicit tag-name fallback IS
used and the result is NOT decided from the accessibility role alone. -/
theorem claim_C1_counterexample :
    axRole genericNavNode = some "generic" ∧
    genericNavNode.original_node.ax_node =
      genericDivNode.original_node.ax_node ∧
    get_landmark_role genericNavNode = some "navigation" ∧
    get_landmark_role genericDivNode = none := by
  refine ⟨by decide, by decide, by decide, by decide⟩

/-- C1 as amended: the implicit tag-name fallback is bypassed exactly when
the (truthy, lowered) accessibility role string is in the fixed
landmark-role set — for such nodes the landmark role is decided from the
accessibility descriptor alone, independent of tag name, node kind and the
rest of the node; when the role string is present but NOT in the set, the
implicit tag-name table is consulted. -/
theorem claim_C1 :
    (∀ (o o' : DOMNode) (i i' : Bool) (cs cs' : List SimplifiedNode)
       (r : String),
       o.ax_node = o'.ax_node →
       axRole (.mk o i cs) = some r → r ∈ LANDMARK_ROLES →
       get_landmark_role (.mk o i cs) = get_landmark_role (.mk o' i' cs')) ∧
    (∀ (n : SimplifiedNode) (r : String),
       axRole n = some r → r ∉ LANDMARK_ROLES →
       get_landmark_role n =
         get_landmark_role.implicit_fallback n (axName n)) := by
  constructor
  · intro o o' i i' cs cs' r hax h1 h2
    have h1' : axRole (.mk o' i' cs') = some r :=
      (axRole_ax_eq i' i cs' cs hax.symm).trans h1
    rw [get_landmark_role_ax_mem h1 h2, get_landmark_role_ax_mem h1' h2,
      axName_ax_eq i i' cs cs' hax]
  · intro n r h1 h2
    exact get_landmark_role_ax_not_mem h1 h2

theorem claim_C1_witness :
    get_landmark_role bannerDivNode = get_landmark_role bannerTextNode ∧
    get_landmark_role genericNavNode =
      get_landmark_role.implicit_fallback genericNavNode
        (axName genericNavNode) :=
  ⟨claim_C1.1 ⟨.elementNode, "div", some ⟨some "banner", none, []⟩, 20, ""⟩
      ⟨.textNode, "span", some ⟨some "banner", none, []⟩, 21, ""⟩
      false true [] [] "banner" rfl (by decide) (by decide),
   claim_C1.2 genericNavNode "generic" (by decide) (by decide)⟩

/-- C7: a node whose landmark role is in the named-only subset
(`form`/`region`) but whose accessible name is absent or empty classifies
as no landmark, and no region of the detected forest is rooted at it; the
same role with a non-empty accessible name yields exactly one top-level
region carrying that role and name.  (The implicit tag table maps no tag
to `form`/`region`, so the accessibility descriptor is the only way to
reach a named-only role.) -/
theorem claim_C7 :
    (∀ (n : SimplifiedNode) (r : String),
       axRole n = some r → r ∈ NAMED_ONLY_ROLES → axName n = none →
       get_landmark_role n = none ∧
         ∀ reg ∈ forestFlatten (detect_landmarks n), reg.node ≠ n) ∧
    (∀ (n : SimplifiedNode) (r nm : String),
       axRole n = some r → r ∈ NAMED_ONLY_ROLES → axName n = some nm →
       ∃ subs, detect_landmarks n =
         [LandmarkRegion.mk r (some nm) n 0 n.children
           (count_interactive n) subs]) ∧
    (detect_landmarks unnamedRegionNode = [] ∧
     detect_landmarks namedRegionNode =
       [LandmarkRegion.mk "region" (some "Special Section") namedRegionNode
         0 [] 0 []]) := by
  refine ⟨?_, ?_, ?_, ?_⟩
  · intro n r h1 h2 h3
    have hnone : get_landmark_role n = none := by
      rw [get_landmark_role_ax_mem h1 (named_only_mem_landmark h2)]
      simp [h2, h3]
    refine ⟨hnone, ?_⟩
    intro reg hreg heq
    have := (detect_forest_inv n 0 reg hreg).1
    rw [heq, hnone] at this
    cases this
  · intro n r nm h1 h2 h3
    have hrole : get_landmark_role n = some r := by
      rw [get_landmark_role_ax_mem h1 (named_only_mem_landmark h2)]
      simp [h3]
    have hname : get_ax_name n = some nm := h3
    refine ⟨n.children.flatMap (fun c => detect_landmarks_recursive c 1), ?_⟩
    rw [detect_landmarks, detect_rec_eq, hrole, hname]
  · rfl
  · rfl

theorem mem_subtreesOf_of_child {c l : SimplifiedNode}
    (h : c ∈ l.children) : c ∈ subtreesOf l := by
  rw [subtreesOf_eq]
  exact List.mem_cons_of_mem _
    (List.mem_flatMap.mpr ⟨c, h, self_mem_subtreesOf c⟩)

/-- Auxiliary step for `detect_top_not_nested`: regions coming out of a
child list cannot be rooted strictly inside a landmark of that child list,
when the backend ids across the children's subtrees are distinct. -/
theorem detect_top_not_nested_aux :
    ∀ cs : List SimplifiedNode,
      (∀ c ∈ cs,
        ((subtreesOf c).map
          (fun n => n.original_node.backend_node_id)).Nodup →
        ∀ (d : Nat) (r : LandmarkRegion), r ∈ detect_landmarks_recursive c d →
          ¬ ∃ l ∈ subtreesOf c, (get_landmark_role l).isSome ∧
              ∃ c' ∈ l.children, r.node ∈ subtreesOf c') →
      ((cs.flatMap subtreesOf).map
        (fun n => n.original_node.backend_node_id)).Nodup →
      ∀ (d : Nat) (r : LandmarkRegion),
        r ∈ cs.flatMap (fun c => detect_landmarks_recursive c d) →
        ∀ l ∈ cs.flatMap subtreesOf, (get_landmark_role l).isSome →
        ∀ c0 ∈ l.children, r.node ∈ subtreesOf c0 → False := by
  intro cs
  induction cs with
  | nil =>
    intro _ _ d r hr
    simp at hr
  | cons a rest ihrest =>
    intro IH hnod d r hr l hl hlrole c0 hc0 hrin
    rw [List.flatMap_cons] at hr hl
    rw [List.flatMap_cons, List.map_append, List.nodup_append] at hnod
    obtain ⟨hn1, hn2, hdisj⟩ := hnod
    have hrl : r.node ∈ subtreesOf l :=
      subtreesOf_trans l hrin (mem_subtreesOf_of_child hc0)
    rcases List.mem_append.mp hr with hra | hrr
    · rcases List.mem_append.mp hl with hla | hlr
      · exact IH a (List.mem_cons_self ..) hn1 d r hra
          ⟨l, hla, hlrole, c0, hc0, hrin⟩
      · have hnode_a : r.node ∈ subtreesOf a := detect_node_mem a d r hra
        rcases List.mem_flatMap.mp hlr with ⟨c', hc', hlc'⟩
        have hnode_r : r.node ∈ subtreesOf c' := subtreesOf_trans c' hrl hlc'
        exact hdisj (List.mem_map.mpr ⟨_, hnode_a, rfl⟩)
          (List.mem_map.mpr ⟨_, List.mem_flatMap.mpr ⟨c', hc', hnode_r⟩, rfl⟩)
    · rcases List.mem_append.mp hl with hla | hlr
      · rcases List.mem_flatMap.mp hrr with ⟨c'', hc'', hrc''⟩
        have h1 : r.node ∈ subtreesOf c'' := detect_node_mem c'' d r hrc''
        have h2 : r.node ∈ subtreesOf a := subtreesOf_trans a hrl hla
        exact hdisj (List.mem_map.mpr ⟨_, h2, rfl⟩)
          (List.mem_map.mpr ⟨_, List.mem_flatMap.mpr ⟨c'', hc'', h1⟩, rfl⟩)
      · exact ihrest (fun c hc => IH c (List.mem_cons_of_mem _ hc)) hn2
          d r hrr l hlr hlrole c0 hc0 hrin

/-- When the backend ids of a tree are pairwise distinct, no region of the
returned top-level forest is rooted strictly inside a landmark node of the
tree. -/
theorem detect_top_not_nested :
    ∀ t : SimplifiedNode,
      ((subtreesOf t).map
        (fun n => n.original_node.backend_node_id)).Nodup →
      ∀ (d : Nat) (r : LandmarkRegion), r ∈ detect_landmarks_recursive t d →
        ¬ ∃ l ∈ subtreesOf t, (get_landmark_role l).isSome ∧
            ∃ c ∈ l.children, r.node ∈ subtreesOf c := by
  intro t
  induction t using node_indOn with
  | step o i cs ih =>
    intro hnod d r hr hcontra
    obtain ⟨l, hl, hlrole, c0, hc0, hrin⟩ := hcontra
    rw [subtreesOf_eq] at hnod hl
    simp only [simplified_children_mk] at hnod hl
    rw [List.map_cons, List.nodup_cons] at hnod
    obtain ⟨hhead, htail⟩ := hnod
    rw [detect_rec_eq] at hr
    cases hrole : get_landmark_role (SimplifiedNode.mk o i cs) with
    | some role =>
      rw [hrole] at hr
      simp only [simplified_children_mk, List.mem_singleton] at hr
      subst hr
      simp only [region_node_mk] at hrin
      rcases List.mem_cons.mp hl with rfl | hl'
      · simp only [simplified_children_mk] at hc0
        exact hhead
          (List.mem_map.mpr ⟨_, List.mem_flatMap.mpr ⟨c0, hc0, hrin⟩, rfl⟩)
      · have h1 : SimplifiedNode.mk o i cs ∈ subtreesOf l :=
          subtreesOf_trans l hrin (mem_subtreesOf_of_child hc0)
        rcases List.mem_flatMap.mp hl' with ⟨c', hc', hlc'⟩
        have h2 : SimplifiedNode.mk o i cs ∈ subtreesOf c' :=
          subtreesOf_trans c' h1 hlc'
        exact hhead
          (List.mem_map.mpr ⟨_, List.mem_flatMap.mpr ⟨c', hc', h2⟩, rfl⟩)
    | none =>
      rw [hrole] at hr
      simp only [simplified_children_mk] at hr
      rcases List.mem_cons.mp hl with rfl | hl'
      · rw [hrole] at hlrole
        cases hlrole
      · exact detect_top_not_nested_aux cs ih htail (d + 1) r hr l hl'
          hlrole c0 hc0 hrin

/-- The nodes of the whole region forest (flattened through sub-regions)
are exactly the landmark nodes of the tree, in document order. -/
theorem forest_nodes_eq :
    ∀ (t : SimplifiedNode) (d : Nat),
      (forestFlatten (detect_landmarks_recursive t d)).map
          LandmarkRegion.node = landmarkNodes t := by
  intro t
  induction t using node_indOn with
  | step o i cs ih =>
    intro d
    rw [detect_rec_eq, landmarkNodes_eq]
    cases hrole : get_landmark_role (SimplifiedNode.mk o i cs) with
    | some role =>
      simp only [hrole, Option.isSome_some, if_pos, forestFlatten,
        List.flatMap_singleton, simplified_children_mk]
      rw [regionFlatten_eq]
      simp only [List.map_cons, region_node_mk,
        LandmarkRegion.sub_regions_mk, List.singleton_append]
      congr 1
      rw [List.flatMap_assoc, List.map_flatMap]
      exact List.flatMap_congr fun c hc => ih c hc (d + 1)
    | none =>
      simp only [hrole, Option.isSome_none, Bool.false_eq_true, if_neg,
        forestFlatten, simplified_children_mk, List.nil_append]
      rw [List.flatMap_assoc, List.map_flatMap]
      exact List.flatMap_congr fun c hc => ih c hc (d + 1)

/-- C3: (i) with pairwise-distinct backend ids, a landmark lying strictly
inside another landmark never appears as a top-level entry of the returned
forest; (ii) flattened through `sub_regions`, the forest's region nodes
are exactly the landmark nodes of the tree, each exactly once — so a node
belongs to at most one region in the flat sense; (iii) for a `nav` inside
a `header`, the result is exactly one top-level `banner` region whose
`sub_regions` hold exactly one `navigation` region. -/
theorem claim_C3 :
    (∀ t : SimplifiedNode,
       ((subtreesOf t).map
         (fun n => n.original_node.backend_node_id)).Nodup →
       ∀ r ∈ detect_landmarks t,
         ¬ ∃ l ∈ subtreesOf t, (get_landmark_role l).isSome ∧
             ∃ c ∈ l.children, r.node ∈ subtreesOf c) ∧
    (∀ t : SimplifiedNode,
       (forestFlatten (detect_landmarks t)).map LandmarkRegion.node =
         landmarkNodes t) ∧
    detect_landmarks rootBodyNode = [bannerRegionVal] :=
  ⟨fun t hnod r hr => detect_top_not_nested t hnod 0 r hr,
   fun t => forest_nodes_eq t 0, rfl⟩

theorem claim_C3_witness :
    ¬ ∃ l ∈ subtreesOf rootBodyNode, (get_landmark_role l).isSome ∧
        ∃ c ∈ l.children, bannerRegionVal.node ∈ subtreesOf c :=
  claim_C3.1 rootBodyNode (by decide) bannerRegionVal
    (by exact List.mem_singleton.mpr rfl)

theorem dict_get_insert_self {α : Type} (m : List (String × α)) (k : String)
    (v : α) : dict_get (dict_insert m k v) k = some v := by
  induction m with
  | nil => simp [dict_insert, dict_get]
  | cons p rest ih =>
    obtain ⟨k', v'⟩ := p
    by_cases h : k' = k
    · simp [dict_insert, dict_get, h]
    · simp [dict_insert, dict_get, h, ih]

theorem dict_get_insert_ne {α : Type} (m : List (String × α))
    (k : String) (v : α) (k' : String) (h : k' ≠ k) :
    dict_get (dict_insert m k v) k' = dict_get m k' := by
  induction m with
  | nil =>
    have hne : ¬ k = k' := fun hh => h hh.symm
    simp [dict_insert, dict_get, hne]
  | cons p rest ih =>
    obtain ⟨a, b⟩ := p
    by_cases ha : a = k
    · subst ha
      have hne : ¬ a = k' := fun hh => h hh.symm
      simp [dict_insert, dict_get, hne]
    · simp [dict_insert, dict_get, ha, ih]

theorem dict_get_foldl {α : Type}
    (f : List (String × α) → LandmarkRegion → List (String × α))
    (g : LandmarkRegion → α)
    (hf : ∀ m r, f m r = dict_insert m (region_key r) (g r)) :
    ∀ (l : List LandmarkRegion) (m0 : List (String × α)) (k : String),
      dict_get (l.foldl f m0) k =
        match lastWithKey k l with
        | some r => some (g r)
        | none => dict_get m0 k := by
  intro l
  induction l with
  | nil => intro m0 k; rfl
  | cons r rest ih =>
    intro m0 k
    rw [List.foldl_cons, hf, ih, lastWithKey]
    cases hrest : lastWithKey k rest with
    | some r' => rfl
    | none =>
      by_cases hk : region_key r = k
      · rw [hk, dict_get_insert_self]
        simp [hk]
      · rw [dict_get_insert_ne _ _ _ _ (fun hh => hk hh.symm)]
        simp [hk]

theorem lastWithKey_mem_key {k : String} :
    ∀ {l : List LandmarkRegion} {r : LandmarkRegion},
      lastWithKey k l = some r → r ∈ l ∧ region_key r = k := by
  intro l
  induction l with
  | nil => intro r h; cases h
  | cons a rest ih =>
    intro r h
    rw [lastWithKey] at h
    cases hrest : lastWithKey k rest with
    | some r' =>
      rw [hrest] at h
      cases h
      obtain ⟨h1, h2⟩ := ih hrest
      exact ⟨List.mem_cons_of_mem _ h1, h2⟩
    | none =>
      rw [hrest] at h
      by_cases hk : region_key a = k
      · rw [if_pos hk] at h
        cases h
        exact ⟨List.mem_cons_self .., hk⟩
      · rw [if_neg hk] at h
        cases h

theorem lastWithKey_isSome_iff {k : String} :
    ∀ {l : List LandmarkRegion},
      (lastWithKey k l).isSome ↔ k ∈ l.map region_key := by
  intro l
  induction l with
  | nil => simp [lastWithKey]
  | cons a rest ih =>
    rw [lastWithKey]
    cases hrest : lastWithKey k rest with
    | some r' =>
      simp only [Option.isSome_some, true_iff]
      rw [hrest] at ih
      simp only [Option.isSome_some, true_iff] at ih
      exact List.mem_cons_of_mem _ ih
    | none =>
      rw [hrest] at ih
      simp only [Option.isSome_none, Bool.false_eq_true, false_iff] at ih
      by_cases hk : region_key a = k
      · simp [hk]
      · simp only [if_neg hk, Option.isSome_none, Bool.false_eq_true,
          false_iff, List.map_cons, List.mem_cons]
        intro hcon
        rcases hcon with h | h
        · exact hk h.symm
        · exact ih h

theorem lastWithKey_self_of_nodup :
    ∀ {l : List LandmarkRegion} {r : LandmarkRegion},
      (l.map region_key).Nodup → r ∈ l →
      lastWithKey (region_key r) l = some r := by
  intro l
  induction l with
  | nil => intro r _ h; cases h
  | cons a rest ih =>
    intro r hnod hr
    rw [List.map_cons, List.nodup_cons] at hnod
    obtain ⟨hnotin, hnod'⟩ := hnod
    rw [lastWithKey]
    rcases List.mem_cons.mp hr with rfl | hr'
    · cases hrest : lastWithKey (region_key r) rest with
      | some r' =>
        exact absurd
          (((lastWithKey_mem_key hrest).2 ▸
            List.mem_map.mpr ⟨r', (lastWithKey_mem_key hrest).1, rfl⟩))
          hnotin
      | none => rw [if_pos rfl]
    · rw [ih hnod' hr']

/-- Lookup characterization of the differ with no previous forest. -/
theorem detect_unchanged_none_get (current : List LandmarkRegion)
    (k : String) :
    dict_get (detect_unchanged_regions current none) k =
      match lastWithKey k current with
      | some _ => some false
      | none => none := by
  rw [detect_unchanged_regions,
    dict_get_foldl _ (fun _ => false) (fun m r => rfl) current [] k]
  cases lastWithKey k current <;> rfl

/-- Lookup characterization of the previous-forest map: the last previous
region per key wins. -/
theorem prev_map_get (ps : List LandmarkRegion) (k : String) :
    dict_get
      (ps.foldl
        (fun m r =>
          dict_insert m (region_key r)
            (r.element_count, region_element_ids r)) [])
      k =
      match lastWithKey k ps with
      | some p => some (p.element_count, region_element_ids p)
      | none => none := by
  rw [dict_get_foldl _
    (fun r => (r.element_count, region_element_ids r)) (fun m r => rfl)
    ps [] k]
  cases lastWithKey k ps <;> rfl

/-- Lookup characterization of the differ with a previous forest: the last
current region per key is compared against the last previous region with
that key. -/
theorem detect_unchanged_some_get (current ps : List LandmarkRegion)
    (k : String) :
    dict_get (detect_unchanged_regions current (some ps)) k =
      match lastWithKey k current with
      | some r =>
        some (match lastWithKey k ps with
              | some p =>
                decide (r.element_count = p.element_count ∧
                  region_element_ids r = region_element_ids p)
              | none => false)
      | none => none := by
  rw [detect_unchanged_regions]
  rw [dict_get_foldl _
    (fun r =>
      match dict_get
          (ps.foldl
            (fun m r =>
              dict_insert m (region_key r)
                (r.element_count, region_element_ids r)) [])
          (region_key r) with
      | none => false
      | some (pc, pids) =>
        decide (r.element_count = pc ∧ region_element_ids r = pids))
    ?_ current [] k]
  · cases hcur : lastWithKey k current with
    | none => rfl
    | some r =>
      have hk : region_key r = k := (lastWithKey_mem_key hcur).2
      dsimp only
      rw [prev_map_get, hk]
      cases lastWithKey k ps <;> rfl
  · intro m r
    cases hget : dict_get
        (ps.foldl
          (fun m r =>
            dict_insert m (region_key r)
              (r.element_count, region_element_ids r)) [])
        (region_key r) with
    | none => simp only [hget]
    | some p =>
      obtain ⟨pc, pids⟩ := p
      simp only [hget]

/-- C2: with no previous forest every current region's key maps to
`false`; with a previous forest (and pairwise-distinct keys on both sides,
as keys identify regions) a current region's key maps to `true` iff the
key occurs in the previous forest with the same element count and the same
interactive-id set; in particular previous ids `{1,2,3}` against current
ids `{1,2,4}` map to `false` although both counts are 3. -/
theorem claim_C2 :
    (∀ (current : List LandmarkRegion) (r : LandmarkRegion), r ∈ current →
       dict_get (detect_unchanged_regions current none) (region_key r) =
         some false) ∧
    (∀ (current ps : List LandmarkRegion) (r : LandmarkRegion),
       r ∈ current →
       (current.map region_key).Nodup → (ps.map region_key).Nodup →
       (dict_get (detect_unchanged_regions current (some ps))
           (region_key r) = some true ↔
        ∃ p ∈ ps, region_key p = region_key r ∧
          p.element_count = r.element_count ∧
          region_element_ids p = region_element_ids r)) ∧
    (curSwapRegion.element_count = prevSwapRegion.element_count ∧
     dict_get
       (detect_unchanged_regions [curSwapRegion] (some [prevSwapRegion]))
       "main:" = some false) := by
  refine ⟨?_, ?_, rfl, by decide⟩
  · intro current r hr
    rw [detect_unchanged_none_get]
    cases hcur : lastWithKey (region_key r) current with
    | some _ => rfl
    | none =>
      have := lastWithKey_isSome_iff.mpr
        (List.mem_map.mpr ⟨r, hr, rfl⟩ :
          region_key r ∈ current.map region_key)
      rw [hcur] at this
      cases this
  · intro current ps r hr hcur hps
    rw [detect_unchanged_some_get, lastWithKey_self_of_nodup hcur hr]
    cases hlast : lastWithKey (region_key r) ps with
    | none =>
      simp only [Option.some_inj]
      constructor
      · intro h; cases h
      · rintro ⟨p, hp, hkey, -, -⟩
        have := lastWithKey_isSome_iff.mpr
          (hkey ▸ List.mem_map.mpr ⟨p, hp, rfl⟩ :
            region_key r ∈ ps.map region_key)
        rw [hlast] at this
        cases this
    | some p =>
      simp only [Option.some_inj, decide_eq_true_eq]
      constructor
      · rintro ⟨h1, h2⟩
        exact ⟨p, (lastWithKey_mem_key hlast).1, (lastWithKey_mem_key hlast).2,
          h1.symm, h2.symm⟩
      · rintro ⟨p', hp', hkey', hc', hi'⟩
        have : lastWithKey (region_key r) ps = some p' :=
          hkey' ▸ lastWithKey_self_of_nodup hps hp'
        rw [hlast] at this
        cases this
        exact ⟨hc'.symm, hi'.symm⟩

theorem claim_C2_witness :
    (dict_get (detect_unchanged_regions [curSwapRegion] none)
       (region_key curSwapRegion) = some false) ∧
    (dict_get
        (detect_unchanged_regions [curSwapRegion] (some [prevSwapRegion]))
        (region_key curSwapRegion) = some true ↔
     ∃ p ∈ [prevSwapRegion], region_key p = region_key curSwapRegion ∧
       p.element_count = curSwapRegion.element_count ∧
       region_element_ids p = region_element_ids curSwapRegion) :=
  ⟨claim_C2.1 [curSwapRegion] curSwapRegion
     (by exact List.mem_singleton.mpr rfl),
   claim_C2.2.1 [curSwapRegion] [prevSwapRegion] curSwapRegion
     (by exact List.mem_singleton.mpr rfl) (by decide) (by decide)⟩

/-- C10: (i) the differ's key set is exactly the identity keys of the
top-level current regions (sub-regions contribute no keys); (ii) under
duplicate keys, the map holds one entry whose value compares the LAST
current region with that key against the LAST previous region with it;
(iii) a nested sub-region's interactive-id set is contained in its
enclosing region's set. -/
theorem claim_C10 :
    (∀ (current : List LandmarkRegion)
       (previous : Option (List LandmarkRegion)) (k : String),
       (dict_get (detect_unchanged_regions current previous) k).isSome ↔
         k ∈ current.map region_key) ∧
    (∀ (current ps : List LandmarkRegion) (k : String)
       (r p : LandmarkRegion),
       lastWithKey k current = some r → lastWithKey k ps = some p →
       dict_get (detect_unchanged_regions current (some ps)) k =
         some (decide (r.element_count = p.element_count ∧
           region_element_ids r = region_element_ids p))) ∧
    (∀ (t : SimplifiedNode) (r s : LandmarkRegion),
       r ∈ forestFlatten (detect_landmarks t) → s ∈ r.sub_regions →
       region_element_ids s ⊆ region_element_ids r) := by
  refine ⟨?_, ?_, ?_⟩
  · intro current previous k
    rw [← lastWithKey_isSome_iff]
    cases previous with
    | none =>
      rw [detect_unchanged_none_get]
      cases lastWithKey k current <;> simp
    | some ps =>
      rw [detect_unchanged_some_get]
      cases lastWithKey k current <;> simp
  · intro current ps k r p h1 h2
    rw [detect_unchanged_some_get, h1, h2]
  · intro t r s hr hs
    obtain ⟨c, hc, hsc⟩ := (detect_forest_inv t 0 r hr).2.2.2.2 s hs
    exact collect_backend_ids_subset
      (subtreesOf_trans r.node hsc (mem_subtreesOf_of_child hc))

theorem claim_C10_witness :
    (dict_get
       (detect_unchanged_regions [curSwapRegion] (some [prevSwapRegion]))
       "main:" =
     some (decide (curSwapRegion.element_count =
         prevSwapRegion.element_count ∧
       region_element_ids curSwapRegion =
         region_element_ids prevSwapRegion))) ∧
    region_element_ids navRegionVal ⊆ region_element_ids bannerRegionVal :=
  ⟨claim_C10.2.1 [curSwapRegion] [prevSwapRegion] "main:"
     curSwapRegion prevSwapRegion rfl rfl,
   claim_C10.2.2 rootBodyNode bannerRegionVal navRegionVal
     (by exact List.mem_cons_self ..)
     (by exact List.mem_singleton.mpr rfl)⟩

/-- C4 fails on the code: `_get_heading_level` returns the parsed AX
`level` property unclamped, so `extract_heading_hierarchy` produces a
`HeadingNode` whose `level` is 7 — outside the 1–6 range the claim (and
the `HeadingNode` dataclass's own field documentation) promises. -/
theorem claim_C4_code_bug :
    get_heading_level levelSevenHeadingNode = some 7 ∧
    extract_heading_hierarchy levelSevenHeadingNode none =
      [HeadingNode.mk 7 "Deep" levelSevenHeadingNode none []] ∧
    ¬ (∀ h ∈ extract_heading_hierarchy levelSevenHeadingNode none,
        1 ≤ h.level ∧ h.level ≤ 6) := by
  refine ⟨by decide, rfl, ?_⟩
  intro hall
  have h7 := hall (HeadingNode.mk 7 "Deep" levelSevenHeadingNode none [])
    (by rw [(rfl :
      extract_heading_hierarchy levelSevenHeadingNode none =
        [HeadingNode.mk 7 "Deep" levelSevenHeadingNode none []])]
        exact List.mem_singleton.mpr rfl)
  simp at h7

theorem pop_ge_nil (lvl : Int) (p : Option HeadingNode) :
    pop_ge lvl [] p = ([], p) := rfl

theorem pop_ge_stay (lvl : Int) {h : HeadingNode} {kids : List HeadingNode}
    {rest : List NestFrame} {p : Option HeadingNode}
    (hgt : ¬ lvl ≤ h.level) :
    pop_ge lvl ((h, kids) :: rest) p =
      ((h, kids ++ p.toList) :: rest, none) := by
  rw [pop_ge, if_neg hgt]

theorem pop_ge_pop (lvl : Int) {h : HeadingNode} {kids : List HeadingNode}
    {rest : List NestFrame} {p : Option HeadingNode}
    (hle : lvl ≤ h.level) :
    pop_ge lvl ((h, kids) :: rest) p =
      pop_ge lvl rest (some (h.withChildren (kids ++ p.toList))) := by
  rw [pop_ge, if_pos hle]

/-- C5: the stack-based nesting pass turns the flat sequence
`[h1 "Title", h2 "A", h3 "A.1", h2 "B"]` into one root `Title` with
children `A` (containing `A.1`) and `B`; and, in general, a deeper heading
directly following a shallower one (no intervening level) becomes its
direct child. -/
theorem claim_C5 :
    (nest_headings [flatHeading 1 "Title", flatHeading 2 "A",
        flatHeading 3 "A.1", flatHeading 2 "B"] =
      [(flatHeading 1 "Title").withChildren
        [(flatHeading 2 "A").withChildren [flatHeading 3 "A.1"],
         flatHeading 2 "B"]]) ∧
    (∀ a b : HeadingNode, a.children = [] → b.children = [] →
      a.level < b.level → nest_headings [a, b] = [a.withChildren [b]]) := by
  refine ⟨rfl, ?_⟩
  rintro ⟨la, ta, na, pa, _⟩ ⟨lb, tb, nb, pb, _⟩ ha hb h
  simp only [heading_children_mk] at ha hb
  subst ha hb
  simp only [HeadingNode.level_mk] at h
  have e1 : nest_step ([], []) (HeadingNode.mk la ta na pa []) =
      ([(HeadingNode.mk la ta na pa [], [])], []) := rfl
  have e2 : nest_step ([(HeadingNode.mk la ta na pa [], [])], [])
      (HeadingNode.mk lb tb nb pb []) =
      ([(HeadingNode.mk lb tb nb pb [], []),
        (HeadingNode.mk la ta na pa [], [])], []) := by
    rw [nest_step,
      pop_ge_stay _
        (show ¬ (HeadingNode.mk lb tb nb pb []).level ≤
            (HeadingNode.mk la ta na pa []).level from h.not_le)]
    rfl
  rw [nest_headings, List.foldl_cons, e1, List.foldl_cons, e2,
    List.foldl_nil]
  rfl

theorem claim_C5_witness :
    nest_headings [flatHeading 1 "x", flatHeading 3 "y"] =
      [(flatHeading 1 "x").withChildren [flatHeading 3 "y"]] :=
  claim_C5.2 (flatHeading 1 "x") (flatHeading 3 "y") rfl rfl (by decide)

theorem withChildren_stripped (h : HeadingNode) (cs : List HeadingNode) :
    (h.withChildren cs).stripped = h.stripped := by
  cases h; rfl

theorem withChildren_children (h : HeadingNode) (cs : List HeadingNode) :
    (h.withChildren cs).children = cs := by
  cases h; rfl

theorem stripped_of_childless {x : HeadingNode} (h : x.children = []) :
    x.stripped = x := by
  cases x with
  | mk l t n p cs =>
    simp only [heading_children_mk] at h
    subst h
    rfl

theorem headingsPreorder_nil : headingsPreorder [] = [] := rfl

theorem headingsPreorder_append (l1 l2 : List HeadingNode) :
    headingsPreorder (l1 ++ l2) =
      headingsPreorder l1 ++ headingsPreorder l2 :=
  List.flatMap_append ..

theorem headingsPreorder_cons (x : HeadingNode) (l : List HeadingNode) :
    headingsPreorder (x :: l) = headingPreorder x ++ headingsPreorder l :=
  List.flatMap_cons ..

theorem headingsPreorder_singleton (x : HeadingNode) :
    headingsPreorder [x] = headingPreorder x := by
  simp [headingsPreorder]

/-- Finalizing the stack exactly appends the open frames' flattening after
the pending heading's flattening is folded in. -/
theorem finalize_stack_pre :
    ∀ (s : List NestFrame) (p : Option HeadingNode),
      headingsPreorder (finalize_stack s p).toList =
        stackPre s ++ headingsPreorder p.toList := by
  intro s
  induction s with
  | nil => intro p; simp [finalize_stack, stackPre]
  | cons f rest ih =>
    intro p
    obtain ⟨h, kids⟩ := f
    rw [finalize_stack, ih, stackPre]
    simp [headingsPreorder, headingPreorder_eq, withChildren_stripped,
      withChildren_children, List.flatMap_append, List.append_assoc]

/-- The popping loop conserves the flattening of stack plus pending. -/
theorem pop_ge_pre :
    ∀ (s : List NestFrame) (p : Option HeadingNode) (lvl : Int),
      stackPre (pop_ge lvl s p).1 ++
          headingsPreorder (pop_ge lvl s p).2.toList =
        stackPre s ++ headingsPreorder p.toList := by
  intro s
  induction s with
  | nil => intro p lvl; rfl
  | cons f rest ih =>
    intro p lvl
    obtain ⟨h, kids⟩ := f
    by_cases hle : lvl ≤ h.level
    · rw [pop_ge_pop lvl hle, ih]
      rw [stackPre]
      simp [headingsPreorder, headingPreorder_eq, withChildren_stripped,
        withChildren_children, List.flatMap_append, List.append_assoc]
    · rw [pop_ge_stay lvl hle]
      simp [stackPre, headingsPreorder, List.flatMap_append,
        List.append_assoc]

/-- A stack-emptying pop is the only way a pending heading escapes. -/
theorem pop_ge_nil_of_some :
    ∀ (s : List NestFrame) (p : Option HeadingNode) (lvl : Int),
      (pop_ge lvl s p).1 = [] ∨ (pop_ge lvl s p).2 = none := by
  intro s
  induction s with
  | nil => intro p lvl; exact Or.inl rfl
  | cons f rest ih =>
    intro p lvl
    obtain ⟨h, kids⟩ := f
    by_cases hle : lvl ≤ h.level
    · rw [pop_ge_pop lvl hle]
      exact ih _ lvl
    · rw [pop_ge_stay lvl hle]
      exact Or.inr rfl

theorem nest_step_eq (st : List NestFrame × List HeadingNode)
    (h : HeadingNode) :
    nest_step st h =
      ((h, h.children) :: (pop_ge h.level st.1 none).1,
       st.2 ++ (pop_ge h.level st.1 none).2.toList) := by
  rw [nest_step]

/-- One loop iteration appends exactly the current heading's pre-order
flattening to the invariant. -/
theorem nest_step_pre (st : List NestFrame × List HeadingNode)
    (h : HeadingNode) :
    headingsPreorder (nest_step st h).2 ++ stackPre (nest_step st h).1 =
      (headingsPreorder st.2 ++ stackPre st.1) ++ headingPreorder h := by
  have hkey : headingsPreorder (pop_ge h.level st.1 none).2.toList ++
      stackPre (pop_ge h.level st.1 none).1 = stackPre st.1 := by
    rcases pop_ge_nil_of_some st.1 none h.level with h1 | h2
    · have hpre := pop_ge_pre st.1 none h.level
      rw [h1] at hpre ⊢
      simp only [stackPre, List.append_nil, List.nil_append,
        Option.toList_none, headingsPreorder_nil] at hpre ⊢
      exact hpre
    · have hpre := pop_ge_pre st.1 none h.level
      rw [h2] at hpre ⊢
      simp only [Option.toList_none, headingsPreorder_nil,
        List.append_nil, List.nil_append] at hpre ⊢
      exact hpre
  have expand :
      headingsPreorder (st.2 ++ (pop_ge h.level st.1 none).2.toList) ++
        stackPre ((h, h.children) :: (pop_ge h.level st.1 none).1) =
      headingsPreorder st.2 ++
        ((headingsPreorder (pop_ge h.level st.1 none).2.toList ++
          stackPre (pop_ge h.level st.1 none).1) ++
          (h.stripped :: headingsPreorder h.children)) := by
    rw [headingsPreorder_append, stackPre]
    simp [List.append_assoc]
  rw [nest_step_eq]
  dsimp only
  rw [expand, hkey, headingPreorder_eq]
  simp [headingsPreorder, List.append_assoc]

/-- The whole loop appends the flat list's pre-order flattening to the
invariant. -/
theorem nest_foldl_pre :
    ∀ (flat : List HeadingNode) (st : List NestFrame × List HeadingNode),
      headingsPreorder (flat.foldl nest_step st).2 ++
          stackPre (flat.foldl nest_step st).1 =
        (headingsPreorder st.2 ++ stackPre st.1) ++
          headingsPreorder flat := by
  intro flat
  induction flat with
  | nil => intro st; simp [headingsPreorder_nil]
  | cons h rest ih =>
    intro st
    rw [List.foldl_cons, ih, nest_step_pre, headingsPreorder_cons]
    simp [List.append_assoc]

/-- C6: the nested forest, read top-to-bottom then depth-first, reproduces
the flat input list exactly — in general its pre-order flattening equals
the input's pre-order flattening, and for a flat list of childless
headings (the shape pass 1 emits) it IS the input list. -/
theorem claim_C6 :
    (∀ flat : List HeadingNode,
       headingsPreorder (nest_headings flat) = headingsPreorder flat) ∧
    (∀ flat : List HeadingNode, (∀ x ∈ flat, x.children = []) →
       headingsPreorder (nest_headings flat) = flat) := by
  have main : ∀ flat : List HeadingNode,
      headingsPreorder (nest_headings flat) = headingsPreorder flat := by
    intro flat
    rcases hfold : flat.foldl nest_step ([], []) with ⟨s, r⟩
    have hinv := nest_foldl_pre flat ([], [])
    rw [hfold] at hinv
    simp only [headingsPreorder_nil, stackPre, List.nil_append,
      List.append_nil] at hinv
    rw [nest_headings, hfold]
    dsimp only
    rw [headingsPreorder_append, finalize_stack_pre]
    simp only [Option.toList_none, headingsPreorder_nil, List.append_nil]
    exact hinv
  refine ⟨main, ?_⟩
  intro flat hchild
  rw [main flat]
  induction flat with
  | nil => rfl
  | cons x rest ih =>
    rw [headingsPreorder_cons, headingPreorder_eq,
      hchild x (List.mem_cons_self ..)]
    rw [ih (fun y hy => hchild y (List.mem_cons_of_mem _ hy))]
    rw [stripped_of_childless (hchild x (List.mem_cons_self ..))]
    rfl

theorem claim_C6_witness :
    headingsPreorder
        (nest_headings [flatHeading 1 "Title", flatHeading 2 "A",
          flatHeading 3 "A.1", flatHeading 2 "B"]) =
      [flatHeading 1 "Title", flatHeading 2 "A",
       flatHeading 3 "A.1", flatHeading 2 "B"] :=
  claim_C6.2 [flatHeading 1 "Title", flatHeading 2 "A",
    flatHeading 3 "A.1", flatHeading 2 "B"]
    (by intro x hx; fin_cases hx <;> rfl)

theorem count_interactive_eq :
    ∀ n : SimplifiedNode,
      count_interactive n =
        (if n.is_interactive then 1 else 0) +
          (n.children.map count_interactive).sum
  | .mk _ _ _ => by
    simp only [count_interactive_mk, SimplifiedNode.is_interactive_mk,
      simplified_children_mk]

/-- C8: every region of the detected forest (sub-regions included) has
`element_count` equal to `count_interactive` of its root node, and
`count_interactive` is 1 for an interactive node plus the recursive sum
over the children — the count spans the entire subtree, nested
sub-landmarks included. -/
theorem claim_C8 :
    (∀ n : SimplifiedNode,
       count_interactive n =
         (if n.is_interactive then 1 else 0) +
           (n.children.map count_interactive).sum) ∧
    (∀ (t : SimplifiedNode) (r : LandmarkRegion),
       r ∈ forestFlatten (detect_landmarks t) →
       r.element_count = count_interactive r.node) :=
  ⟨count_interactive_eq,
   fun t r hr => (detect_forest_inv t 0 r hr).2.2.2.1⟩

theorem claim_C8_witness :
    navRegionVal.element_count = count_interactive navRegionVal.node :=
  claim_C8.2 rootBodyNode navRegionVal
    (by exact List.mem_cons_of_mem _ (List.mem_singleton.mpr rfl))

theorem claim_C7_witness :
    (get_landmark_role unnamedRegionNode = none ∧
     ∀ reg ∈ forestFlatten (detect_landmarks unnamedRegionNode),
       reg.node ≠ unnamedRegionNode) ∧
    (∃ subs, detect_landmarks namedRegionNode =
       [LandmarkRegion.mk "region" (some "Special Section") namedRegionNode
         0 namedRegionNode.children (count_interactive namedRegionNode)
         subs]) :=
  ⟨claim_C7.1 unnamedRegionNode "region" rfl (by decide) rfl,
   claim_C7.2.1 namedRegionNode "region" "Special Section" rfl (by decide)
     rfl⟩

/-- Counterexample to C9: the heading that follows the closed `<nav>`
subtree is the DFS-successor of a landmark entry, so under the claimed
last-seen-wins rule its label would be `NAVIGATION` (as the linear-scan
model shows); `_collect_headings_flat` instead passes the label down by
parameter, so the heading keeps the enclosing context's label `none`. -/
theorem claim_C9_counterexample :
    collect_headings_flat scanExTree none =
      [HeadingNode.mk 2 "After" h2AfterNode none []] ∧
    scan_headings_linear (subtreesOf scanExTree) none =
      [HeadingNode.mk 2 "After" h2AfterNode (some "NAVIGATION") []] ∧
    (HeadingNode.mk 2 "After" h2AfterNode none []).parent_landmark ≠
      (HeadingNode.mk 2 "After" h2AfterNode
        (some "NAVIGATION") []).parent_landmark :=
  ⟨rfl, rfl, by decide⟩

theorem stack_scan_enter (n : SimplifiedNode) (rest : List WalkEv)
    (stk : List (Option String)) :
    stack_scan_headings (.enter n :: rest) stk =
      (let cur' : Option String :=
        match get_landmark_role n with
        | some role => some (landmark_label role (get_ax_name n))
        | none => stk.headD none
      (match get_heading_level n with
       | some lvl => [HeadingNode.mk lvl (get_heading_text n) n cur' []]
       | none => []) ++ stack_scan_headings rest (cur' :: stk)) := rfl

theorem stack_scan_leave (rest : List WalkEv)
    (stk : List (Option String)) :
    stack_scan_headings (.leave :: rest) stk =
      stack_scan_headings rest stk.tail := rfl

/-- Scanning the concatenated event streams of a child list. -/
theorem stack_scan_go :
    ∀ cs : List SimplifiedNode,
      (∀ c ∈ cs, ∀ (rest : List WalkEv) (cur : Option String)
         (stk : List (Option String)),
         stack_scan_headings (walkEvents c ++ rest) (cur :: stk) =
           collect_headings_flat c cur ++
             stack_scan_headings rest (cur :: stk)) →
      ∀ (rest : List WalkEv) (cur : Option String)
        (stk : List (Option String)),
        stack_scan_headings (walkEvents.go cs ++ rest) (cur :: stk) =
          cs.flatMap (fun c => collect_headings_flat c cur) ++
            stack_scan_headings rest (cur :: stk) := by
  intro cs
  induction cs with
  | nil => intro _ rest cur stk; simp [walkEvents.go]
  | cons c cs' ih =>
    intro hIH rest cur stk
    rw [walkEvents.go, List.append_assoc,
      hIH c (List.mem_cons_self ..) (walkEvents.go cs' ++ rest) cur stk,
      ih (fun c' hc' => hIH c' (List.mem_cons_of_mem _ hc')) rest cur stk]
    simp [List.append_assoc]

/-- The source's parameter-passing label discipline IS the scope-stack
scan: collecting headings of a subtree equals scanning its enter/leave
event stream with a label stack topped by the inherited label. -/
theorem stack_scan_walk :
    ∀ (t : SimplifiedNode) (rest : List WalkEv) (cur : Option String)
      (stk : List (Option String)),
      stack_scan_headings (walkEvents t ++ rest) (cur :: stk) =
        collect_headings_flat t cur ++
          stack_scan_headings rest (cur :: stk) := by
  intro t
  induction t using node_indOn with
  | step o i cs ih =>
    intro rest cur stk
    rw [walkEvents, List.cons_append, stack_scan_enter, collect_flat_eq]
    dsimp only
    cases hrole : get_landmark_role (SimplifiedNode.mk o i cs) with
    | some role =>
      simp only [hrole, simplified_children_mk]
      rw [List.append_assoc,
        stack_scan_go cs ih ([WalkEv.leave] ++ rest)
          (some (landmark_label role
            (get_ax_name (SimplifiedNode.mk o i cs)))) (cur :: stk),
        List.singleton_append, stack_scan_leave]
      simp [List.append_assoc]
    | none =>
      simp only [hrole, List.headD_cons, simplified_children_mk]
      rw [List.append_assoc,
        stack_scan_go cs ih ([WalkEv.leave] ++ rest) cur (cur :: stk),
        List.singleton_append, stack_scan_leave]
      simp [List.append_assoc]

/-- C9 as amended: the label is propagated by parameter passing, which is
exactly a proper scope-stack discipline — headings collect with the label
of their nearest ancestor-or-self landmark (or the inherited initial
label), and the label reverts on leaving a landmark's subtree: (i) the
collection equals the scope-stack scan of the walk's enter/leave events;
(ii) a sibling following a closed subtree is collected with the parent's
own label, regardless of any landmark inside that earlier subtree. -/
theorem claim_C9 :
    (∀ (t : SimplifiedNode) (cur : Option String),
       collect_headings_flat t cur =
         stack_scan_headings (walkEvents t) [cur]) ∧
    (∀ (o : DOMNode) (i : Bool) (a b : SimplifiedNode)
       (cur : Option String),
       get_landmark_role (.mk o i [a, b]) = none →
       get_heading_level (.mk o i [a, b]) = none →
       collect_headings_flat (.mk o i [a, b]) cur =
         collect_headings_flat a cur ++ collect_headings_flat b cur) := by
  constructor
  · intro t cur
    have h0 := stack_scan_walk t [] cur []
    rw [List.append_nil] at h0
    rw [h0]
    simp [stack_scan_headings]
  · intro o i a b cur hrole hlvl
    rw [collect_flat_eq]
    simp only [hrole, hlvl, simplified_children_mk, List.flatMap_cons,
      List.flatMap_nil, List.append_nil, List.nil_append,
      List.append_assoc]

theorem claim_C9_witness :
    (collect_headings_flat scanExTree none =
       stack_scan_headings (walkEvents scanExTree) [none]) ∧
    (collect_headings_flat scanExTree none =
       collect_headings_flat plainNavNode none ++
         collect_headings_flat h2AfterNode none) :=
  ⟨claim_C9.1 scanExTree none,
   claim_C9.2 ⟨.elementNode, "body", none, 50, ""⟩ false plainNavNode
     h2AfterNode none rfl rfl⟩

end Outline
